/-
Verification of the go-transcode HLS session manager (package `hls`,
`ManagerCtx`): a shallow embedding of its state and operations, and proofs
about activation, playlist serving, idle cleanup, start/stop lifecycle and
media-path resolution.

Machine strings are modelled as Lean `String` (or `List Char` for the
path-manipulation functions), durations as `Nat` seconds, and the effects of
the Go code (mutation of `ManagerCtx` fields, channel sends/closes, deferred
callbacks) as explicit state passing.  Nondeterministic inputs (the result of
`os.MkdirTemp`, of `cmd.Start()`, which `select` case fires) are passed as
explicit environment parameters.
-/
import Mathlib

/-! ## Path model (Go `path.Base`, `path.Clean`, `path.Join`)

`ServeMedia` computes `path.Join(m.tempdir, path.Base(r.URL.RequestURI()))`.
We embed the Go standard library `path` functions on `List Char`.
-/

/-- Split a path at every `/` (the separator is dropped; empty components are
kept, mirroring how Go `path.Clean` scans between slashes). -/
def splitSlash : List Char → List (List Char)
  | [] => [[]]
  | c :: rest =>
    if c = '/' then [] :: splitSlash rest
    else
      match splitSlash rest with
      | [] => [[c]]
      | s :: ss => (c :: s) :: ss

/-- Join components with `/` (inverse of `splitSlash`). -/
def joinSlash : List (List Char) → List Char
  | [] => []
  | [c] => c
  | c :: rest => c ++ '/' :: joinSlash rest

/-- One step of Go `path.Clean`'s element processing: empty and `.` elements
are dropped, `..` pops the previous element (kept when there is nothing to
pop and the path is not rooted, dropped at the root), and any other element
is pushed. `stack` holds the already-output elements in reverse order. -/
def pushComp (rooted : Bool) (stack : List (List Char)) (c : List Char) :
    List (List Char) :=
  if c = [] ∨ c = ['.'] then stack
  else if c = ['.', '.'] then
    match stack with
    | [] => if rooted then [] else [c]
    | top :: rest => if top = ['.', '.'] then c :: stack else rest
  else c :: stack

/-- Go `path.Clean`: shortest lexical equivalent of a path (collapse multiple
slashes, drop `.` elements, resolve `..` against preceding elements, drop
`..` at the root; the cleaned empty path is `.`). -/
def goClean (p : List Char) : List Char :=
  if p = [] then ['.']
  else if p.head? = some '/' then
    '/' :: joinSlash ((splitSlash p).foldl (pushComp true) []).reverse
  else if joinSlash ((splitSlash p).foldl (pushComp false) []).reverse = [] then
    ['.']
  else joinSlash ((splitSlash p).foldl (pushComp false) []).reverse

/-- Strip all trailing slashes. -/
def stripTrailingSlashes (p : List Char) : List Char :=
  (p.reverse.dropWhile (fun c => c = '/')).reverse

/-- The suffix after the last slash (everything when there is none). -/
def afterLastSlash (p : List Char) : List Char :=
  (p.reverse.takeWhile (fun c => ¬(c = '/'))).reverse

/-- Go `path.Base`: last element of the path after stripping trailing
slashes; `"."` for the empty path, `"/"` for an all-slash path. -/
def goBase (p : List Char) : List Char :=
  if p = [] then ['.']
  else if afterLastSlash (stripTrailingSlashes p) = [] then ['/']
  else afterLastSlash (stripTrailingSlashes p)

/-- Go `path.Join` restricted to two elements: drop leading empty elements,
join the rest with `/`, and `Clean` the result. -/
def goJoin (a b : List Char) : List Char :=
  if a = [] then
    if b = [] then [] else goClean b
  else goClean (a ++ '/' :: b)

/-- `ServeMedia`'s file-name resolution: `fileName := path.Base(r.URL.RequestURI())`. -/
def servedFileName (uri : String) : List Char := goBase uri.data

/-- `ServeMedia`'s path resolution: `path := path.Join(m.tempdir, fileName)`. -/
def servedMediaPath (tempdir uri : String) : String :=
  ⟨goJoin tempdir.data (servedFileName uri)⟩

/-- `p` lies within directory `dir`: it is `dir` itself or starts with
`dir ++ "/"`. -/
def withinDir (dir p : List Char) : Prop :=
  p = dir ∨ p.take (dir.length + 1) = dir ++ ['/']

instance (dir p : List Char) : Decidable (withinDir dir p) := by
  unfold withinDir; infer_instance

/-- A directory path component acceptable inside a working-directory path:
nonempty and neither `.` nor `..`. -/
def simpleComp (c : List Char) : Bool :=
  decide (¬(c = [] ∨ c = ['.'] ∨ c = ['.', '.']))

/-- `dir` is a rooted path of at least one component, none of which is empty,
`.` or `..` (the shape of every `os.MkdirTemp` result). -/
def goodDir (dir : List Char) : Bool :=
  match splitSlash dir with
  | [] :: comps => decide (comps ≠ []) && comps.all simpleComp
  | _ => false

/-! ## Session-manager model (`ManagerCtx`)

Timing constants are in seconds. -/

def cleanupPeriod : Nat := 4
def playlistTimeout : Nat := 20
def hlsMinimumSegments : Nat := 2
def activeIdleTimeout : Nat := 12
def inactiveIdleTimeout : Nat := 24

/-- The subprocess handle `m.cmd`: its working directory and whether
`cmd.Start()` succeeded (in Go, `cmd.Process != nil`). -/
structure Cmd where
  dir : String
  processStarted : Bool
deriving DecidableEq

/-- The `playlistLoad` channel of one generation: still open and undelivered,
or already used once (value `v` handed to the single rendezvous receiver) and
closed, so that later receivers observe the zero value `""`. -/
inductive HandoffState where
  | pending : HandoffState
  | closed : String → HandoffState
deriving DecidableEq

/-- The mutable fields of `ManagerCtx`. `shutdownClosed` records whether the
`shutdown` channel of the current generation has been closed. -/
structure ManagerCtx where
  cmd : Option Cmd
  tempdir : String
  lastRequest : Nat
  active : Bool
  sequence : Nat
  playlist : String
  handoff : HandoffState
  shutdownClosed : Bool
deriving DecidableEq

/-- The state `New` returns: no cmd, zero-valued fields, fresh channels. -/
def newManager : ManagerCtx :=
  { cmd := none, tempdir := "", lastRequest := 0, active := false,
    sequence := 0, playlist := "", handoff := HandoffState.pending,
    shutdownClosed := false }

deriving instance DecidableEq for Except

/-- Environment of one `Start` call: the result of `os.MkdirTemp` and of
`cmd.Start()`. -/
structure StartEnv where
  mkdirTemp : Except String String
  spawnErr : Option String
deriving DecidableEq

/-- `Start()`.  Returns the new state and the returned error, if any.
Faithful ordering: the conflict check on `m.cmd`; `m.tempdir, err =
os.MkdirTemp(...)` (which writes `""` into `tempdir` on failure); creation of
the cmd with its working directory; reset of all generation-scoped fields;
finally `cmd.Start()`, which sets `cmd.Process` only on success. -/
def start (env : StartEnv) (now : Nat) (m : ManagerCtx) :
    ManagerCtx × Option String :=
  if m.cmd.isSome then (m, some "has already started")
  else
    match env.mkdirTemp with
    | Except.error e => ({ m with tempdir := "" }, some e)
    | Except.ok dir =>
      let m1 : ManagerCtx :=
        { m with
          tempdir := dir
          cmd := some { dir := dir, processStarted := false }
          active := false
          lastRequest := now
          sequence := 0
          playlist := ""
          handoff := HandoffState.pending
          shutdownClosed := false }
      match env.spawnErr with
      | some e => (m1, some e)
      | none => ({ m1 with cmd := some { dir := dir, processStarted := true } }, none)

/-- `Stop()`: no-op when no cmd is associated; otherwise closes `shutdown`,
and only when `cmd.Process != nil` kills the process group and clears
`m.cmd`. -/
def stop (m : ManagerCtx) : ManagerCtx :=
  match m.cmd with
  | none => m
  | some c =>
    let m1 := { m with shutdownClosed := true }
    if c.processStarted then { m1 with cmd := none } else m1

/-- Whether `Stop` reaches the `time.AfterFunc` call that schedules removal
of the working directory (everything past the `m.cmd == nil` early return). -/
def stopScheduledRemoval (m : ManagerCtx) : Bool := m.cmd.isSome

/-- The directory the deferred-removal callback deletes when the 2-second
grace timer fires: the callback closure runs `os.RemoveAll(m.tempdir)`, so it
reads the session's `tempdir` field in the state current AT FIRE TIME, not
the value it had when `Stop` ran. -/
def deferredRemovalTarget (mAtFire : ManagerCtx) : String := mAtFire.tempdir

/-- `Cleanup`'s stop condition: `m.active && diff > activeIdleTimeout ||
!m.active && diff > inactiveIdleTimeout` with `diff := time.Since(m.lastRequest)`. -/
def cleanupStopCond (now : Nat) (m : ManagerCtx) : Bool :=
  (m.active && decide (activeIdleTimeout < now - m.lastRequest)) ||
    (!m.active && decide (inactiveIdleTimeout < now - m.lastRequest))

/-- `Cleanup()`: evaluate the two-tier idle policy, then `Stop` if it fired. -/
def cleanup (now : Nat) (m : ManagerCtx) : ManagerCtx :=
  if cleanupStopCond now m then stop m else m

/-- One iteration of the output-reader goroutine body for a read returning
`chunk` (`n != 0` iff `chunk ≠ ""`): a non-empty read replaces the playlist
wholesale, increments the sequence counter, and, exactly when the counter
equals `hlsMinimumSegments`, marks the session active and performs the
handoff (`m.playlistLoad <- m.playlist; close(m.playlistLoad)`). -/
def readerStep (m : ManagerCtx) (chunk : String) : ManagerCtx :=
  if chunk = "" then m
  else if m.sequence + 1 = hlsMinimumSegments then
    { m with
      playlist := chunk
      sequence := m.sequence + 1
      active := true
      handoff := HandoffState.closed chunk }
  else { m with playlist := chunk, sequence := m.sequence + 1 }

/-- The output-reader loop over a list of read results `(chunk, isErr)`:
a chunk is processed even when the same read reports an error, and an error
terminates the loop, discarding all later events. -/
def readerRun : ManagerCtx → List (String × Bool) → ManagerCtx
  | m, [] => m
  | m, (c, e) :: rest =>
    if e then readerStep m c else readerRun (readerStep m c) rest

/-- The non-empty chunks of a list of read events, in order. -/
def nonEmptyChunks (evs : List (String × Bool)) : List String :=
  (evs.map Prod.fst).filter (fun c => decide (c ≠ ""))

/-- What the `i`-th receiver on the `playlistLoad` channel obtains: on a
pending channel a receive blocks (`none`); after the single send-and-close,
the rendezvous partner (receiver 0) gets the sent value and every later
receiver gets the zero value `""` from the closed channel. -/
def handoffReceive : HandoffState → Nat → Option String
  | HandoffState.pending, _ => none
  | HandoffState.closed v, 0 => some v
  | HandoffState.closed _, _ + 1 => some ""

/-- An HTTP response as written by the handlers. -/
structure Response where
  status : Nat
  contentType : Option String
  cacheControl : Option String
  body : String
deriving DecidableEq

/-- The 200 playlist/media response with its two headers. -/
def mpegurlOk (body : String) : Response :=
  { status := 200, contentType := some "application/vnd.apple.mpegurl",
    cacheControl := some "no-cache", body := body }

/-- Which case of `ServePlaylist`'s three-way `select` fired: a receive from
`playlistLoad` yielding `v`, a receive from the closed `shutdown` channel, or
the `time.After(playlistTimeout)` case. -/
inductive WaitOutcome where
  | handoffRecv : String → WaitOutcome
  | shutdownRecv : WaitOutcome
  | timeoutFired : WaitOutcome
deriving DecidableEq

/-- The tail of `ServePlaylist` after the lazy start: the `!m.active` wait
with its three outcomes, then the 200 response. `playlist` is the local
variable captured before the start attempt. -/
def servePlaylistWait (m : ManagerCtx) (playlist : String) (o : WaitOutcome) :
    ManagerCtx × Response :=
  if m.active then (m, mpegurlOk playlist)
  else
    match o with
    | WaitOutcome.handoffRecv v => (m, mpegurlOk v)
    | WaitOutcome.shutdownRecv =>
      (m, { status := 404, contentType := none, cacheControl := none,
            body := "404 playlist not found" })
    | WaitOutcome.timeoutFired =>
      (m, { status := 500, contentType := none, cacheControl := none,
            body := "500 not available" })

/-- `ServePlaylist`: record `lastRequest`, capture the `playlist` local,
lazily `Start` when no cmd is associated (a start error is returned as a 500
whose body is the error text), then serve or wait. -/
def servePlaylist (env : StartEnv) (now : Nat) (o : WaitOutcome)
    (m : ManagerCtx) : ManagerCtx × Response :=
  let m1 := { m with lastRequest := now }
  let playlist := m1.playlist
  if m1.cmd.isSome then servePlaylistWait m1 playlist o
  else
    match start env now m1 with
    | (m2, some e) =>
      (m2, { status := 500, contentType := none, cacheControl := none, body := e })
    | (m2, none) => servePlaylistWait m2 playlist o

/-- The filesystem as `ServeMedia` sees it: whether `os.Stat` finds the
resolved path, and the bytes `http.ServeFile` would stream for it. -/
structure MediaEnv where
  fsHas : String → Bool
  fsRead : String → String

/-- `ServeMedia`: resolve the path, 404 when the file does not exist,
otherwise record `lastRequest` and stream the file. -/
def serveMedia (env : MediaEnv) (now : Nat) (uri : String) (m : ManagerCtx) :
    ManagerCtx × Response :=
  let fp := servedMediaPath m.tempdir uri
  if env.fsHas fp then ({ m with lastRequest := now }, mpegurlOk (env.fsRead fp))
  else
    (m, { status := 404, contentType := none, cacheControl := none,
          body := "404 media not found" })

/-- One state transition of the session: any public operation or one
output-reader iteration. -/
inductive Step : ManagerCtx → ManagerCtx → Prop where
  | startStep (env : StartEnv) (now : Nat) (m : ManagerCtx) :
      Step m (start env now m).1
  | stopStep (m : ManagerCtx) : Step m (stop m)
  | cleanupStep (now : Nat) (m : ManagerCtx) : Step m (cleanup now m)
  | playlistStep (env : StartEnv) (now : Nat) (o : WaitOutcome) (m : ManagerCtx) :
      Step m (servePlaylist env now o m).1
  | mediaStep (env : MediaEnv) (now : Nat) (uri : String) (m : ManagerCtx) :
      Step m (serveMedia env now uri m).1
  | readStep (c : String) (m : ManagerCtx) : Step m (readerStep m c)

/-- Reachability: finitely many `Step`s. -/
inductive Reach : ManagerCtx → ManagerCtx → Prop where
  | refl (m : ManagerCtx) : Reach m m
  | tail {a b c : ManagerCtx} : Reach a b → Step b c → Reach a c

/-! Concrete environments used in the closed evaluation theorems. -/

def envA : StartEnv := { mkdirTemp := Except.ok "/tmp/A", spawnErr := none }
def envB : StartEnv := { mkdirTemp := Except.ok "/tmp/B", spawnErr := none }
def envT : StartEnv := { mkdirTemp := Except.ok "/tmp/T", spawnErr := none }
def envSpawnFail : StartEnv :=
  { mkdirTemp := Except.ok "/tmp/T", spawnErr := some "spawn failed" }
def envMkdirFail : StartEnv :=
  { mkdirTemp := Except.error "mkdir failed", spawnErr := none }

/-! ## Basic lemmas about the lifecycle operations -/

/-- A `Start` on a session that already has a cmd returns the conflict error
and leaves the state untouched. -/
lemma start_of_isSome (env : StartEnv) (now : Nat) (m : ManagerCtx)
    (h : m.cmd.isSome) : start env now m = (m, some "has already started") := by
  unfold start
  rw [if_pos h]

/-- A successful `Start` presupposes a free session and fixes every
generation-scoped field of the new state. -/
lemma start_success (env : StartEnv) (now : Nat) (m : ManagerCtx)
    (h : (start env now m).2 = none) :
    ∃ dir, env.mkdirTemp = Except.ok dir ∧ env.spawnErr = none ∧
      m.cmd = none ∧
      (start env now m).1 =
        { cmd := some { dir := dir, processStarted := true }, tempdir := dir,
          lastRequest := now, active := false, sequence := 0, playlist := "",
          handoff := HandoffState.pending, shutdownClosed := false } := by
  cases hc : m.cmd with
  | some c =>
    rw [start_of_isSome env now m (by rw [hc]; rfl)] at h
    simp at h
  | none =>
    cases hm : env.mkdirTemp with
    | error e => simp [start, hc, hm] at h
    | ok dir =>
      cases hs : env.spawnErr with
      | some e => simp [start, hc, hm, hs] at h
      | none => exact ⟨dir, rfl, rfl, rfl, by simp [start, hc, hm, hs]⟩

/-- `servePlaylistWait` never mutates the state. -/
lemma servePlaylistWait_fst (m : ManagerCtx) (p : String) (o : WaitOutcome) :
    (servePlaylistWait m p o).1 = m := by
  unfold servePlaylistWait
  split
  · rfl
  · cases o <;> rfl

/-- When a cmd is associated, `ServePlaylist` only updates `lastRequest`. -/
lemma servePlaylist_fst_of_isSome (env : StartEnv) (now : Nat) (o : WaitOutcome)
    (m : ManagerCtx) (h : m.cmd.isSome) :
    (servePlaylist env now o m).1 = { m with lastRequest := now } := by
  unfold servePlaylist
  have h1 : ({ m with lastRequest := now } : ManagerCtx).cmd.isSome = true := h
  rw [if_pos h1]
  exact servePlaylistWait_fst _ _ _

/-! ## Claim C3: two-tier idle policy of `Cleanup` -/

/-- Claim C3: `Cleanup` stops the subprocess exactly when the session is
active and idle strictly longer than `activeIdleTimeout`, or not active and
idle strictly longer than the strictly larger `inactiveIdleTimeout`; in every
other case it leaves the state unchanged. -/
theorem hls_C3 (now : Nat) (m : ManagerCtx) :
    (cleanup now m = if cleanupStopCond now m then stop m else m) ∧
    (cleanupStopCond now m = true ↔
      (m.active = true ∧ activeIdleTimeout < now - m.lastRequest) ∨
      (m.active = false ∧ inactiveIdleTimeout < now - m.lastRequest)) ∧
    (cleanupStopCond now m = false → cleanup now m = m) ∧
    activeIdleTimeout < inactiveIdleTimeout := by
  refine ⟨rfl, ?_, ?_, by decide⟩
  · unfold cleanupStopCond
    cases h : m.active <;> simp
  · intro h
    unfold cleanup
    rw [h]
    rfl

/-- A session that is active, with a live cmd, a served playlist and a spent
handoff (the state right after activation). -/
def mActive : ManagerCtx :=
  { cmd := some { dir := "/tmp/T", processStarted := true }, tempdir := "/tmp/T",
    lastRequest := 0, active := true, sequence := 2, playlist := "PL",
    handoff := HandoffState.closed "PL", shutdownClosed := false }

theorem hls_C3_witness : cleanup 5 mActive = mActive :=
  (hls_C3 5 mActive).2.2.1 (by decide)

/-! ## Claim C4: each read replaces the playlist wholesale; errors end the
generation -/

/-- Claim C4: a non-empty read replaces `playlist` with exactly the bytes of
that read and increments `sequence` by one; an empty read changes nothing;
and a read that reports an error terminates the reader, discarding every
later event without retrying. -/
theorem hls_C4 (m : ManagerCtx) (c : String) :
    (c ≠ "" → (readerStep m c).playlist = c ∧
      (readerStep m c).sequence = m.sequence + 1) ∧
    readerStep m "" = m ∧
    (∀ evs, readerRun m ((c, true) :: evs) = readerStep m c) := by
  refine ⟨?_, by simp [readerStep], fun evs => rfl⟩
  intro hc
  unfold readerStep
  rw [if_neg hc]
  split <;> exact ⟨rfl, rfl⟩

lemma readerStep_empty (m : ManagerCtx) : readerStep m "" = m := by
  simp [readerStep]

theorem hls_C4_witness :
    (readerStep newManager "seg1").playlist = "seg1" ∧
    (readerStep newManager "seg1").sequence = newManager.sequence + 1 :=
  (hls_C4 newManager "seg1").1 (by decide)

/-! ## Claim C5: double Start is a conflict with no side effects -/

/-- Claim C5: calling `Start` while a cmd is associated returns the
"has already started" error and leaves every field of the state unchanged. -/
theorem hls_C5 (env : StartEnv) (now : Nat) (m : ManagerCtx)
    (h : m.cmd.isSome) : start env now m = (m, some "has already started") :=
  start_of_isSome env now m h

theorem hls_C5_witness :
    start envT 3 (start envT 0 newManager).1 =
      ((start envT 0 newManager).1, some "has already started") :=
  hls_C5 envT 3 (start envT 0 newManager).1 (by decide)

/-! ## Claim C6: behaviour of the two Start failure paths -/

/-- Claim C6 (evaluation): a `MkdirTemp` failure returns the underlying error
unchanged and leaves the session un-started (a later `Start` succeeds in
returning no conflict), but a spawn failure — although its error is also
returned unchanged — leaves `m.cmd` set with no process, so the next `Start`
returns the conflict error instead of being permitted. -/
theorem hls_C6_behavior :
    start envMkdirFail 0 newManager =
      ({ newManager with tempdir := "" }, some "mkdir failed") ∧
    (start envT 1 { newManager with tempdir := "" }).2 = none ∧
    (start envSpawnFail 0 newManager).2 = some "spawn failed" ∧
    (start envSpawnFail 0 newManager).1.cmd =
      some { dir := "/tmp/T", processStarted := false } ∧
    (start envT 1 (start envSpawnFail 0 newManager).1).2 =
      some "has already started" := by
  decide

/-! ## Claim C8: the deferred directory removal after Stop -/

/-- Claim C8 (evaluation): `Stop` schedules the removal through a closure
that reads `m.tempdir` when the grace timer fires; if a new `Start` runs
before the delay elapses, the callback deletes the NEW generation's directory
(`/tmp/B`) and the stopped generation's directory (`/tmp/A`) is never
removed. -/
theorem hls_C8_behavior :
    (start envA 0 newManager).2 = none ∧
    (start envA 0 newManager).1.tempdir = "/tmp/A" ∧
    stopScheduledRemoval (start envA 0 newManager).1 = true ∧
    (start envB 1 (stop (start envA 0 newManager).1)).2 = none ∧
    deferredRemovalTarget (start envB 1 (stop (start envA 0 newManager).1)).1 =
      "/tmp/B" ∧
    deferredRemovalTarget (start envB 1 (stop (start envA 0 newManager).1)).1 ≠
      "/tmp/A" := by
  decide

/-! ## Claim C2: the playlist request outcomes -/

/-- Claim C2: with a cmd associated and the session active, `ServePlaylist`
answers 200 with the current playlist for every wait outcome (it never
consults the wait); with a cmd associated but not active, the three
mutually exclusive select outcomes produce 200 with the delivered value,
404 "404 playlist not found", and 500 "500 not available" respectively; and
a failed lazy `Start` (either failure path) produces 500 whose body is the
error text unchanged. -/
theorem hls_C2 (env : StartEnv) (now : Nat) (o : WaitOutcome) (m : ManagerCtx) :
    (m.cmd.isSome → m.active = true →
      (servePlaylist env now o m).2 = mpegurlOk m.playlist) ∧
    (m.cmd.isSome → m.active = false → ∀ v,
      (servePlaylist env now (WaitOutcome.handoffRecv v) m).2 = mpegurlOk v) ∧
    (m.cmd.isSome → m.active = false →
      (servePlaylist env now WaitOutcome.shutdownRecv m).2 =
        { status := 404, contentType := none, cacheControl := none,
          body := "404 playlist not found" }) ∧
    (m.cmd.isSome → m.active = false →
      (servePlaylist env now WaitOutcome.timeoutFired m).2 =
        { status := 500, contentType := none, cacheControl := none,
          body := "500 not available" }) ∧
    (∀ e, m.cmd = none → env.mkdirTemp = Except.error e →
      (servePlaylist env now o m).2 =
        { status := 500, contentType := none, cacheControl := none,
          body := e }) ∧
    (∀ d e, m.cmd = none → env.mkdirTemp = Except.ok d → env.spawnErr = some e →
      (servePlaylist env now o m).2 =
        { status := 500, contentType := none, cacheControl := none,
          body := e }) := by
  refine ⟨?_, ?_, ?_, ?_, ?_, ?_⟩
  · intro hc ha
    simp [servePlaylist, servePlaylistWait, hc, ha]
  · intro hc ha v
    simp [servePlaylist, servePlaylistWait, hc, ha]
  · intro hc ha
    simp [servePlaylist, servePlaylistWait, hc, ha]
  · intro hc ha
    simp [servePlaylist, servePlaylistWait, hc, ha]
  · intro e hc hm
    simp [servePlaylist, start, hc, hm]
  · intro d e hc hm hs
    simp [servePlaylist, start, hc, hm, hs]

theorem hls_C2_witness :
    (servePlaylist envT 7 WaitOutcome.timeoutFired mActive).2 =
      mpegurlOk "PL" :=
  (hls_C2 envT 7 WaitOutcome.timeoutFired mActive).1 (by decide) rfl

/-! ## Claim C9: several waiters at activation -/

/-- A session whose cmd is live but which has not yet activated: the state
seen by playlist requests that entered the three-way wait. -/
def mWaiting : ManagerCtx :=
  { cmd := some { dir := "/tmp/T", processStarted := true }, tempdir := "/tmp/T",
    lastRequest := 0, active := false, sequence := 1, playlist := "PL2",
    handoff := HandoffState.pending, shutdownClosed := false }

/-- Claim C9: after the handoff send-and-close of value `v`, receiver 0 (the
rendezvous partner) is the only receiver that obtains `v`; every later
receiver obtains the zero value `""` from the closed channel; a waiter whose
receive yields `v` responds 200 with `v`, and a waiter whose receive yields
the zero value responds 200 with an empty body, which is not the current
playlist text. -/
theorem hls_C9 (env : StartEnv) (now : Nat) (m : ManagerCtx) (v : String)
    (hc : m.cmd.isSome) (ha : m.active = false) (hp : m.playlist = v)
    (hv : v ≠ "") :
    (∀ i, handoffReceive (HandoffState.closed v) i = some v ↔ i = 0) ∧
    (∀ i, 1 ≤ i → handoffReceive (HandoffState.closed v) i = some "") ∧
    (servePlaylist env now (WaitOutcome.handoffRecv v) m).2 = mpegurlOk v ∧
    (servePlaylist env now (WaitOutcome.handoffRecv "") m).2 = mpegurlOk "" ∧
    (servePlaylist env now (WaitOutcome.handoffRecv "") m).2.body = "" ∧
    (servePlaylist env now (WaitOutcome.handoffRecv "") m).2.body ≠ m.playlist := by
  refine ⟨?_, ?_, ?_, ?_, ?_, ?_⟩
  · intro i
    cases i with
    | zero => simp [handoffReceive]
    | succ j =>
      simp only [handoffReceive, Option.some.injEq, Nat.succ_ne_zero, iff_false]
      exact fun h => hv h.symm
  · intro i hi
    cases i with
    | zero => omega
    | succ j => rfl
  · simp [servePlaylist, servePlaylistWait, hc, ha]
  · simp [servePlaylist, servePlaylistWait, hc, ha]
  · simp [servePlaylist, servePlaylistWait, hc, ha, mpegurlOk]
  · simp [servePlaylist, servePlaylistWait, hc, ha, mpegurlOk, hp]
    exact fun h => hv h.symm

theorem hls_C9_witness :
    (∀ i, handoffReceive (HandoffState.closed "PL2") i = some "PL2" ↔ i = 0) ∧
    (∀ i, 1 ≤ i →
      handoffReceive (HandoffState.closed "PL2") i = some "") ∧
    (servePlaylist envT 9 (WaitOutcome.handoffRecv "PL2") mWaiting).2 =
      mpegurlOk "PL2" ∧
    (servePlaylist envT 9 (WaitOutcome.handoffRecv "") mWaiting).2 =
      mpegurlOk "" ∧
    (servePlaylist envT 9 (WaitOutcome.handoffRecv "") mWaiting).2.body = "" ∧
    (servePlaylist envT 9 (WaitOutcome.handoffRecv "") mWaiting).2.body ≠
      mWaiting.playlist :=
  hls_C9 envT 9 mWaiting "PL2" (by decide) rfl rfl (by decide)

/-! ## Claim C10: a spawn failure wedges the session forever -/

/-- Every single step preserves "the cmd handle is this process-less `c`". -/
lemma wedged_step {m m2 : ManagerCtx} (c : Cmd) (h1 : m.cmd = some c)
    (h2 : c.processStarted = false) (hs : Step m m2) : m2.cmd = some c := by
  cases hs with
  | startStep env now m =>
    rw [start_of_isSome env now m (by rw [h1]; rfl)]
    exact h1
  | stopStep m =>
    unfold stop
    rw [h1]
    simp [h2]
  | cleanupStep now m =>
    unfold cleanup
    split
    · unfold stop
      rw [h1]
      simp [h2]
    · exact h1
  | playlistStep env now o m =>
    rw [servePlaylist_fst_of_isSome env now o m (by rw [h1]; rfl)]
    exact h1
  | mediaStep env now uri m =>
    unfold serveMedia
    dsimp only
    split <;> simpa using h1
  | readStep ch m =>
    unfold readerStep
    split
    · exact h1
    · split <;> exact h1

/-- The wedge is preserved along every reachable path. -/
lemma wedged_reach {m m2 : ManagerCtx} (c : Cmd) (h1 : m.cmd = some c)
    (h2 : c.processStarted = false) (hr : Reach m m2) : m2.cmd = some c := by
  induction hr with
  | refl => exact h1
  | tail hr hs ih => exact wedged_step c ih h2 hs

/-- Claim C10: once `cmd.Start()` has failed (cmd handle present, no
process), every reachable state still carries that same process-less handle,
every later `Start` returns the conflict error with no state change, and
`Stop` never clears the handle. -/
theorem hls_C10 (m m2 : ManagerCtx) (c : Cmd) (h1 : m.cmd = some c)
    (h2 : c.processStarted = false) (hr : Reach m m2) :
    m2.cmd = some c ∧ c.processStarted = false ∧
    (∀ env now, start env now m2 = (m2, some "has already started")) ∧
    (stop m2).cmd = some c := by
  have hm2 := wedged_reach c h1 h2 hr
  refine ⟨hm2, h2, ?_, ?_⟩
  · intro env now
    exact start_of_isSome env now m2 (by rw [hm2]; rfl)
  · unfold stop
    rw [hm2]
    simp [h2]

/-- The state right after a spawn failure on a fresh session. -/
def mWedged : ManagerCtx := (start envSpawnFail 0 newManager).1

theorem hls_C10_witness :
    mWedged.cmd = some { dir := "/tmp/T", processStarted := false } ∧
    ({ dir := "/tmp/T", processStarted := false } : Cmd).processStarted = false ∧
    (∀ env now, start env now mWedged = (mWedged, some "has already started")) ∧
    (stop mWedged).cmd = some { dir := "/tmp/T", processStarted := false } :=
  hls_C10 mWedged mWedged { dir := "/tmp/T", processStarted := false }
    (by decide) rfl (Reach.refl mWedged)

/-! ## Claim C1: activation and the first-playlist handoff -/

lemma readerRun_nil (m : ManagerCtx) : readerRun m [] = m := rfl

lemma readerRun_cons (m : ManagerCtx) (c : String) (e : Bool)
    (rest : List (String × Bool)) :
    readerRun m ((c, e) :: rest) =
      if e then readerStep m c else readerRun (readerStep m c) rest := rfl

lemma readerStep_nonempty_eq (m : ManagerCtx) (c : String) (hc : c ≠ "") :
    readerStep m c =
      if m.sequence + 1 = hlsMinimumSegments then
        { m with
          playlist := c
          sequence := m.sequence + 1
          active := true
          handoff := HandoffState.closed c }
      else { m with playlist := c, sequence := m.sequence + 1 } := by
  unfold readerStep
  rw [if_neg hc]

lemma nonEmptyChunks_nil : nonEmptyChunks [] = [] := rfl

lemma nonEmptyChunks_cons (c : String) (e : Bool) (rest : List (String × Bool)) :
    nonEmptyChunks ((c, e) :: rest) =
      if c = "" then nonEmptyChunks rest else c :: nonEmptyChunks rest := by
  unfold nonEmptyChunks
  by_cases hc : c = "" <;> simp [hc]

/-- Once the session is active with at least the minimum sequence count, the
rest of the generation never unsets the flag nor touches the handoff again
(the reader tests `sequence == hlsMinimumSegments` with equality). -/
lemma readerRun_stable (evs : List (String × Bool)) :
    ∀ m : ManagerCtx, m.active = true → 2 ≤ m.sequence →
      (readerRun m evs).active = true ∧
      (readerRun m evs).handoff = m.handoff ∧
      2 ≤ (readerRun m evs).sequence := by
  induction evs with
  | nil => exact fun m ha hs => ⟨ha, rfl, hs⟩
  | cons p rest ih =>
    obtain ⟨c, e⟩ := p
    intro m ha hs
    have hstep : (readerStep m c).active = true ∧
        (readerStep m c).handoff = m.handoff ∧
        2 ≤ (readerStep m c).sequence := by
      by_cases hc : c = ""
      · subst hc
        rw [readerStep_empty]
        exact ⟨ha, rfl, hs⟩
      · rw [readerStep_nonempty_eq m c hc]
        rw [if_neg (by unfold hlsMinimumSegments; omega)]
        exact ⟨ha, rfl, by simp; omega⟩
    rw [readerRun_cons]
    cases e
    · rw [if_neg (by simp)]
      obtain ⟨h1, h2, h3⟩ := ih (readerStep m c) hstep.1 hstep.2.2
      exact ⟨h1, h2.trans hstep.2.1, h3⟩
    · rw [if_pos rfl]
      exact hstep

/-- The active flag is monotone within a generation. -/
lemma readerRun_active_mono (evs : List (String × Bool)) :
    ∀ m : ManagerCtx, m.active = true → (readerRun m evs).active = true := by
  induction evs with
  | nil => exact fun m ha => ha
  | cons p rest ih =>
    obtain ⟨c, e⟩ := p
    intro m ha
    have hstep : (readerStep m c).active = true := by
      by_cases hc : c = ""
      · subst hc
        rw [readerStep_empty]
        exact ha
      · rw [readerStep_nonempty_eq m c hc]
        split
        · rfl
        · exact ha
    rw [readerRun_cons]
    cases e
    · rw [if_neg (by simp)]
      exact ih _ hstep
    · rw [if_pos rfl]
      exact hstep

/-- Core activation lemma: starting below the minimum with a pending handoff,
an error-free run activates exactly when the number of non-empty reads brings
the sequence count to the minimum, and the handoff then holds the non-empty
chunk read at that instant. -/
lemma readerRun_activation (evs : List (String × Bool)) :
    ∀ m : ManagerCtx, (∀ p ∈ evs, p.2 = false) →
      m.active = false → m.sequence ≤ 1 →
      ((readerRun m evs).active = true ↔
        2 - m.sequence ≤ (nonEmptyChunks evs).length) ∧
      (2 - m.sequence ≤ (nonEmptyChunks evs).length →
        (readerRun m evs).handoff =
          HandoffState.closed ((nonEmptyChunks evs).getD (1 - m.sequence) "")) := by
  induction evs with
  | nil =>
    intro m herr ha hs
    rw [readerRun_nil, nonEmptyChunks_nil]
    constructor
    · rw [ha]
      simp
      omega
    · intro h
      simp at h
      omega
  | cons p rest ih =>
    obtain ⟨c, e⟩ := p
    intro m herr ha hs
    have he : e = false := herr (c, e) (by simp)
    subst he
    rw [readerRun_cons, if_neg (by simp), nonEmptyChunks_cons]
    by_cases hc : c = ""
    · subst hc
      rw [readerStep_empty, if_pos rfl]
      exact ih m (fun p hp => herr p (by simp [hp])) ha hs
    · rw [if_neg hc, readerStep_nonempty_eq m c hc]
      have hcase : m.sequence = 0 ∨ m.sequence = 1 := by omega
      cases hcase with
      | inr h1 =>
        rw [if_pos (by unfold hlsMinimumSegments; omega)]
        obtain ⟨s1, s2, s3⟩ :=
          readerRun_stable rest
            { m with
              playlist := c
              sequence := m.sequence + 1
              active := true
              handoff := HandoffState.closed c }
            rfl (by simp; omega)
        constructor
        · rw [s1]
          simp [h1]
        · intro _
          rw [s2, h1]
          simp
      | inl h0 =>
        rw [if_neg (by unfold hlsMinimumSegments; omega)]
        obtain ⟨hiff, hhand⟩ :=
          ih { m with playlist := c, sequence := m.sequence + 1 }
            (fun p hp => herr p (by simp [hp])) (by simp [ha]) (by simp; omega)
        constructor
        · rw [hiff]
          simp [h0]
        · intro h
          simp [h0] at h
          rw [hhand (by simp [h0]; omega)]
          simp [h0]

/-- Claim C1: in every generation begun by a successful `Start`, the active
flag starts false; over an error-free run it becomes true exactly when the
reader has seen the configured minimum (2) of non-empty reads; the handoff
then holds exactly the second non-empty chunk — the playlist text current at
the activation instant (whenever a step changes the handoff at all, it closes
it with that step's own playlist) — delivered to exactly one waiting
receiver, with every other waiter seeing the closed channel; and the flag
stays true for the rest of the generation. -/
theorem hls_C1 (env : StartEnv) (now : Nat) (m0 m1 r : ManagerCtx)
    (evs : List (String × Bool))
    (hstart : (start env now m0).2 = none)
    (hm1 : m1 = (start env now m0).1)
    (herr : ∀ p ∈ evs, p.2 = false)
    (hmin : hlsMinimumSegments ≤ (nonEmptyChunks evs).length)
    (hr : r = readerRun m1 evs) :
    m1.active = false ∧
    (r.active = true ↔ hlsMinimumSegments ≤ (nonEmptyChunks evs).length) ∧
    r.handoff = HandoffState.closed ((nonEmptyChunks evs).getD 1 "") ∧
    handoffReceive r.handoff 0 = some ((nonEmptyChunks evs).getD 1 "") ∧
    (∀ i, 1 ≤ i → handoffReceive r.handoff i = some "") ∧
    (∀ g ch, ch ≠ "" → (readerStep g ch).handoff ≠ g.handoff →
      (readerStep g ch).active = true ∧
      (readerStep g ch).handoff = HandoffState.closed (readerStep g ch).playlist) ∧
    (∀ more, (readerRun r more).active = true) := by
  obtain ⟨dir, hdir, hspawn, hcmd, hm1eq⟩ := start_success env now m0 hstart
  rw [hm1eq] at hm1
  have hact : m1.active = false := by rw [hm1]
  have hseq : m1.sequence = 0 := by rw [hm1]
  obtain ⟨hiff, hhand⟩ :=
    readerRun_activation evs m1 herr hact (by omega)
  rw [hseq] at hiff hhand
  simp only [Nat.sub_zero] at hiff hhand
  have hmin2 : 2 ≤ (nonEmptyChunks evs).length := hmin
  have hhandeq : r.handoff =
      HandoffState.closed ((nonEmptyChunks evs).getD 1 "") := by
    rw [hr]
    exact hhand hmin2
  have hactive : r.active = true := by
    rw [hr, hiff]
    exact hmin2
  refine ⟨hact, ?_, hhandeq, ?_, ?_, ?_, ?_⟩
  · rw [hr]
    exact hiff.trans (by unfold hlsMinimumSegments; exact Iff.rfl)
  · rw [hhandeq]
    rfl
  · intro i hi
    rw [hhandeq]
    cases i with
    | zero => omega
    | succ j => rfl
  · intro g ch hch hne
    rw [readerStep_nonempty_eq g ch hch] at hne ⊢
    by_cases hm : g.sequence + 1 = hlsMinimumSegments
    · rw [if_pos hm]
      exact ⟨rfl, rfl⟩
    · rw [if_neg hm] at hne
      exact absurd rfl hne
  · intro more
    exact readerRun_active_mono more r hactive

theorem hls_C1_witness :
    handoffReceive
      (readerRun (start envT 0 newManager).1
        [("one", false), ("two", false)]).handoff 0 =
      some ((nonEmptyChunks [("one", false), ("two", false)]).getD 1 "") :=
  (hls_C1 envT 0 newManager (start envT 0 newManager).1
    (readerRun (start envT 0 newManager).1 [("one", false), ("two", false)])
    [("one", false), ("two", false)] (by decide) rfl (by decide) (by decide)
    rfl).2.2.2.1

/-! ## Claim C7: media path resolution -/

lemma splitSlash_ne_nil (p : List Char) : splitSlash p ≠ [] := by
  cases p with
  | nil => simp [splitSlash]
  | cons c rest =>
    unfold splitSlash
    by_cases hc : c = '/'
    · rw [if_pos hc]
      simp
    · rw [if_neg hc]
      cases h : splitSlash rest <;> simp

lemma splitSlash_dest (p : List Char) : ∃ s ss, splitSlash p = s :: ss := by
  cases h : splitSlash p with
  | nil => exact absurd h (splitSlash_ne_nil p)
  | cons s ss => exact ⟨s, ss, rfl⟩

lemma splitSlash_cons_slash (rest : List Char) :
    splitSlash ('/' :: rest) = [] :: splitSlash rest := by
  rfl

lemma splitSlash_cons_ne (c : Char) (rest : List Char) (hc : c ≠ '/')
    (s : List Char) (ss : List (List Char)) (h : splitSlash rest = s :: ss) :
    splitSlash (c :: rest) = (c :: s) :: ss := by
  unfold splitSlash
  rw [if_neg hc, h]

lemma joinSlash_splitSlash (p : List Char) : joinSlash (splitSlash p) = p := by
  induction p with
  | nil => rfl
  | cons c rest ih =>
    obtain ⟨s, ss, hss⟩ := splitSlash_dest rest
    by_cases hc : c = '/'
    · subst hc
      rw [splitSlash_cons_slash, hss]
      show [] ++ '/' :: joinSlash (s :: ss) = '/' :: rest
      rw [← hss, ih]
      rfl
    · rw [splitSlash_cons_ne c rest hc s ss hss]
      rw [hss] at ih
      cases ss with
      | nil =>
        show c :: s = c :: rest
        rw [← ih]
        rfl
      | cons t ts =>
        show (c :: s) ++ '/' :: joinSlash (t :: ts) = c :: rest
        rw [← ih]
        rfl

lemma splitSlash_append (a b : List Char) :
    splitSlash (a ++ '/' :: b) = splitSlash a ++ splitSlash b := by
  induction a with
  | nil =>
    show splitSlash ('/' :: b) = splitSlash [] ++ splitSlash b
    rw [splitSlash_cons_slash]
    rfl
  | cons c a ih =>
    by_cases hc : c = '/'
    · subst hc
      show splitSlash ('/' :: (a ++ '/' :: b)) = splitSlash ('/' :: a) ++ splitSlash b
      rw [splitSlash_cons_slash, splitSlash_cons_slash, ih]
      rfl
    · obtain ⟨s, ss, hss⟩ := splitSlash_dest a
      have hab : splitSlash (a ++ '/' :: b) = s :: (ss ++ splitSlash b) := by
        rw [ih, hss]
        rfl
      show splitSlash (c :: (a ++ '/' :: b)) = splitSlash (c :: a) ++ splitSlash b
      rw [splitSlash_cons_ne c _ hc s (ss ++ splitSlash b) hab,
        splitSlash_cons_ne c a hc s ss hss]
      rfl

lemma splitSlash_no_slash (c : List Char) (h : '/' ∉ c) : splitSlash c = [c] := by
  induction c with
  | nil => rfl
  | cons a rest ih =>
    have ha : a ≠ '/' := by
      rintro rfl
      exact h (List.mem_cons_self _ _)
    have hr : splitSlash rest = [rest] :=
      ih (fun hm => h (List.mem_cons_of_mem a hm))
    exact splitSlash_cons_ne a rest ha rest [] hr

lemma pushComp_skip (r : Bool) (s : List (List Char)) (c : List Char)
    (h : c = [] ∨ c = ['.']) : pushComp r s c = s := by
  unfold pushComp
  rw [if_pos h]

lemma pushComp_simple (r : Bool) (s : List (List Char)) (c : List Char)
    (h : simpleComp c = true) : pushComp r s c = c :: s := by
  unfold simpleComp at h
  simp only [decide_eq_true_eq] at h
  push_neg at h
  unfold pushComp
  rw [if_neg (by tauto), if_neg h.2.2]

lemma foldl_pushComp_simple (comps : List (List Char)) :
    ∀ (r : Bool) (s : List (List Char)),
      (∀ c ∈ comps, simpleComp c = true) →
      comps.foldl (pushComp r) s = comps.reverse ++ s := by
  induction comps with
  | nil => intro r s _; rfl
  | cons c rest ih =>
    intro r s h
    rw [List.foldl_cons, pushComp_simple r s c (h c (by simp))]
    rw [ih r (c :: s) (fun d hd => h d (by simp [hd]))]
    simp

lemma foldl_pushComp_skip (tail : List (List Char)) :
    ∀ (r : Bool) (s : List (List Char)),
      (∀ c ∈ tail, c = [] ∨ c = ['.']) →
      tail.foldl (pushComp r) s = s := by
  induction tail with
  | nil => intro r s _; rfl
  | cons c rest ih =>
    intro r s h
    rw [List.foldl_cons, pushComp_skip r s c (h c (by simp))]
    exact ih r s (fun d hd => h d (by simp [hd]))

lemma joinSlash_append_single (comps : List (List Char)) (n : List Char)
    (h : comps ≠ []) :
    joinSlash (comps ++ [n]) = joinSlash comps ++ '/' :: n := by
  induction comps with
  | nil => exact absurd rfl h
  | cons c rest ih =>
    cases rest with
    | nil => rfl
    | cons d ds =>
      show c ++ '/' :: joinSlash ((d :: ds) ++ [n]) =
        (c ++ '/' :: joinSlash (d :: ds)) ++ '/' :: n
      rw [ih (by simp)]
      simp

lemma dir_repr (dir : List Char) (comps : List (List Char))
    (hrepr : splitSlash dir = [] :: comps) (hne : comps ≠ []) :
    dir = '/' :: joinSlash comps := by
  have hj := joinSlash_splitSlash dir
  rw [hrepr] at hj
  cases comps with
  | nil => exact absurd rfl hne
  | cons a as =>
    rw [← hj]
    rfl

/-- Core shape of `goClean` on a good directory joined with one more
element: rooted, with the directory components pre-loaded on the stack. -/
lemma goClean_core (dir : List Char) (comps : List (List Char))
    (name : List Char) (hrepr : splitSlash dir = [] :: comps)
    (hne : comps ≠ []) (hall : ∀ c ∈ comps, simpleComp c = true) :
    goClean (dir ++ '/' :: name) =
      '/' :: joinSlash
        ((splitSlash name).foldl (pushComp true) comps.reverse).reverse := by
  have hdir := dir_repr dir comps hrepr hne
  have hp : dir ++ '/' :: name ≠ [] := by
    rw [hdir]
    simp
  have hhead : (dir ++ '/' :: name).head? = some '/' := by
    rw [hdir]
    rfl
  unfold goClean
  rw [if_neg hp, if_pos hhead]
  rw [splitSlash_append, hrepr, List.foldl_append, List.foldl_cons,
    pushComp_skip true [] [] (Or.inl rfl),
    foldl_pushComp_simple comps true [] hall, List.append_nil]

/-- Joining a good directory with a simple element keeps both. -/
lemma goClean_keep (dir : List Char) (comps : List (List Char))
    (name : List Char) (hrepr : splitSlash dir = [] :: comps)
    (hne : comps ≠ []) (hall : ∀ c ∈ comps, simpleComp c = true)
    (hns : '/' ∉ name) (hsimple : simpleComp name = true) :
    goClean (dir ++ '/' :: name) = dir ++ '/' :: name := by
  rw [goClean_core dir comps name hrepr hne hall]
  rw [splitSlash_no_slash name hns, List.foldl_cons, List.foldl_nil,
    pushComp_simple true comps.reverse name hsimple,
    List.reverse_cons, List.reverse_reverse,
    joinSlash_append_single comps name hne]
  rw [dir_repr dir comps hrepr hne]
  simp

/-- Joining a good directory with only empty or `.` elements returns the
directory. -/
lemma goClean_drop (dir : List Char) (comps : List (List Char))
    (name : List Char) (hrepr : splitSlash dir = [] :: comps)
    (hne : comps ≠ []) (hall : ∀ c ∈ comps, simpleComp c = true)
    (hskip : ∀ c ∈ splitSlash name, c = [] ∨ c = ['.']) :
    goClean (dir ++ '/' :: name) = dir := by
  rw [goClean_core dir comps name hrepr hne hall]
  rw [foldl_pushComp_skip (splitSlash name) true comps.reverse hskip,
    List.reverse_reverse]
  exact (dir_repr dir comps hrepr hne).symm

lemma slash_not_mem_afterLastSlash (p : List Char) :
    '/' ∉ afterLastSlash p := by
  unfold afterLastSlash
  intro hmem
  rw [List.mem_reverse] at hmem
  have := List.mem_takeWhile_imp hmem
  simp at this

/-- The base name is either the root `"/"` or slash-free and nonempty. -/
lemma goBase_shape (p : List Char) :
    goBase p = ['/'] ∨ ('/' ∉ goBase p ∧ goBase p ≠ []) := by
  unfold goBase
  by_cases hp : p = []
  · rw [if_pos hp]
    right
    refine ⟨by simp, by simp⟩
  · rw [if_neg hp]
    by_cases hb : afterLastSlash (stripTrailingSlashes p) = []
    · rw [if_pos hb]
      left
      rfl
    · rw [if_neg hb]
      exact Or.inr ⟨slash_not_mem_afterLastSlash _, hb⟩

/-- Claim C7 counterexample: the request URI `"/hls/x/.."` has base name
`".."`, and `ServeMedia` resolves it to `"/tmp"` — the parent of the
session's working directory `"/tmp/go-transcode-hls1"`, outside it. -/
theorem hls_C7_counterexample :
    servedMediaPath "/tmp/go-transcode-hls1" "/hls/x/.." = "/tmp" ∧
    ¬ withinDir "/tmp/go-transcode-hls1".data
        (servedMediaPath "/tmp/go-transcode-hls1" "/hls/x/..").data := by
  decide

/-- Claim C7 as amended: the requested name is resolved to its base name,
which is the root `"/"` or slash-free; and for every request whose base name
is not `".."`, the resolved path stays within the session's working
directory (any rooted directory whose components are nonempty and free of
dot elements, as `os.MkdirTemp` produces). -/
theorem hls_C7_amended (dir uri : String) (hd : goodDir dir.data = true)
    (hb : servedFileName uri ≠ ['.', '.']) :
    (servedFileName uri = ['/'] ∨ '/' ∉ servedFileName uri) ∧
    withinDir dir.data (servedMediaPath dir uri).data := by
  obtain ⟨comps, hrepr, hne, hall⟩ :
      ∃ comps, splitSlash dir.data = [] :: comps ∧ comps ≠ [] ∧
        ∀ c ∈ comps, simpleComp c = true := by
    unfold goodDir at hd
    rcases hsp : splitSlash dir.data with _ | ⟨h0, t⟩
    · rw [hsp] at hd
      simp at hd
    · cases h0 with
      | nil =>
        rw [hsp] at hd
        simp only [Bool.and_eq_true, decide_eq_true_eq] at hd
        refine ⟨t, rfl, hd.1, ?_⟩
        intro c hc
        exact List.all_eq_true.mp hd.2 c hc
      | cons ch ct =>
        rw [hsp] at hd
        simp at hd
  have hdirne : dir.data ≠ [] := by
    rw [dir_repr dir.data comps hrepr hne]
    simp
  have hpath : (servedMediaPath dir uri).data =
      goJoin dir.data (servedFileName uri) := rfl
  rcases goBase_shape uri.data with hsh | ⟨hns, hnn⟩
  · refine ⟨Or.inl hsh, ?_⟩
    rw [hpath]
    unfold goJoin
    rw [if_neg hdirne]
    have hn : servedFileName uri = ['/'] := hsh
    rw [hn, goClean_drop dir.data comps ['/'] hrepr hne hall (by decide)]
    exact Or.inl rfl
  · have hns' : '/' ∉ servedFileName uri := hns
    refine ⟨Or.inr hns', ?_⟩
    rw [hpath]
    unfold goJoin
    rw [if_neg hdirne]
    by_cases hsimple : simpleComp (servedFileName uri) = true
    · rw [goClean_keep dir.data comps (servedFileName uri) hrepr hne hall
        hns' hsimple]
      right
      have hsplit : dir.data ++ '/' :: servedFileName uri =
          (dir.data ++ ['/']) ++ servedFileName uri := by simp
      rw [hsplit]
      exact List.take_left' (by simp)
    · have hname : servedFileName uri = ['.'] := by
        unfold simpleComp at hsimple
        simp only [decide_eq_true_eq, Decidable.not_not] at hsimple
        rcases hsimple with h | h | h
        · exact absurd h hnn
        · exact h
        · exact absurd h hb
      rw [hname, goClean_drop dir.data comps ['.'] hrepr hne hall (by decide)]
      exact Or.inl rfl

theorem hls_C7_witness :
    (servedFileName "/hls/seg0.ts" = ['/'] ∨
      '/' ∉ servedFileName "/hls/seg0.ts") ∧
    withinDir "/tmp/go-transcode-hls1".data
      (servedMediaPath "/tmp/go-transcode-hls1" "/hls/seg0.ts").data :=
  hls_C7_amended "/tmp/go-transcode-hls1" "/hls/seg0.ts" (by decide) (by decide)
